import Mathlib

/-!
Shallow embedding of the KPI-dashboard core logic in `src/app.py`:

* `safe_convert_time` (app.py lines 256-271) — duration parsing;
* `clean_percentage_value` (app.py lines 79-86) — percentage cleaning;
* `calculate_weighted_score` (app.py lines 95-123) — the composite score;
* `get_weekly_top_performers` (app.py lines 125-189) — the aggregation,
  left-merge, scoring and top-5 ranking pipeline.

Python floats are modelled as exact rationals (`Rat`); Python strings as
`String`/`List Char`.  Pandas cells are modelled by `CellVal`
(missing/NaN, numeric, or string).
-/

/-- Model of a raw cell value reaching the Python helpers: `null` stands
for `None`/`NaN` (anything `pd.isna` accepts), `num` for an `int`/`float`
(modelled as an exact rational), `str` for a string. -/
inductive CellVal where
  | null : CellVal
  | num (x : Rat) : CellVal
  | str (s : String) : CellVal
deriving DecidableEq

/-- Whitespace test used to model Python's `str.strip()`. -/
def isSp (c : Char) : Bool := c.isWhitespace

/-- Model of Python's `str.strip()` on a list of characters: drop leading
and trailing whitespace. -/
def trimSp (cs : List Char) : List Char :=
  ((cs.dropWhile isSp).reverse.dropWhile isSp).reverse

/-- Model of Python's `str.split(sep)` for a one-character separator:
`splitOnChar ':' "a:b"` gives `["a", "b"]`, and the empty string gives
`[""]`, exactly as in Python. -/
def splitOnChar (sep : Char) : List Char → List (List Char)
  | [] => [[]]
  | c :: cs =>
    if c = sep then [] :: splitOnChar sep cs
    else
      match splitOnChar sep cs with
      | [] => [[c]]
      | g :: gs => (c :: g) :: gs

/-- Decimal digit-string value (`"123"` maps to `123`).  Helper for the
model of Python's `float(...)`. -/
def digitsToNat (cs : List Char) : Nat :=
  cs.foldl (fun a c => 10 * a + (c.toNat - 48)) 0

/-- Model of Python's `float(...)` on an unsigned decimal literal: digits
with at most one `'.'` and at least one digit (`"1."` and `".5"` are
accepted, as in Python).  Returns `none` where Python raises
`ValueError`.  Exponents, underscores and `inf`/`nan` literals are not
modelled; no claim depends on such inputs. -/
def parseUnsigned? (cs : List Char) : Option Rat :=
  if (cs.all fun c => c.isDigit || c == '.') ∧ (cs.any fun c => c.isDigit) ∧ cs.count '.' ≤ 1
  then
    match splitOnChar '.' cs with
    | [i] => some (digitsToNat i : Nat)
    | [i, f] => some ((digitsToNat i : Rat) + (digitsToNat f : Rat) / (10 ^ f.length))
    | _ => none
  else none

/-- Sign dispatch of the `float(...)` model: an optional single leading
`'-'` or `'+'` in front of an unsigned decimal literal. -/
def parseSigned? : List Char → Option Rat
  | [] => none
  | c :: r =>
    if c = '-' then (parseUnsigned? r).map (fun q => -q)
    else if c = '+' then parseUnsigned? r
    else parseUnsigned? (c :: r)

/-- Model of Python's `float(...)` on a decimal literal with an optional
leading sign; Python also strips surrounding whitespace, modelled by the
leading `trimSp`. -/
def parseFloatChars? (cs : List Char) : Option Rat := parseSigned? (trimSp cs)

/-- String case of `safe_convert_time` (app.py lines 262-271), applied to
the already-stripped character list.  The sentinel check models
`str(time_val).strip() in ['', '0', '00:00', '00:00:00']` (line 257).
In the colon branch the source runs `parts = list(map(float,
time_str.split(':')))` and dispatches on `len(parts)`; a parse failure
raises inside `map` and lands in the `except` handler returning `0.0`,
and for any length other than 3 or 2 the source falls through to
`return float(time_str)`, which always raises because `time_str` still
contains a colon — both are the catch-all `0` branches below. -/
def strCore (cs : List Char) : Rat :=
  if cs = [] ∨ cs = ['0'] ∨ cs = "00:00".toList ∨ cs = "00:00:00".toList then 0
  else if ':' ∈ cs then
    match splitOnChar ':' cs with
    | [p1, p2, p3] =>
      match parseFloatChars? p1, parseFloatChars? p2, parseFloatChars? p3 with
      | some a, some b, some c => a * 3600 + b * 60 + c
      | _, _, _ => 0
    | [p1, p2] =>
      match parseFloatChars? p1, parseFloatChars? p2 with
      | some a, some b => a * 60 + b
      | _, _ => 0
    | _ => 0
  else (parseFloatChars? cs).getD 0

/-- Model of `safe_convert_time` (app.py lines 256-271), the spec's
`parse_duration`.  For `null` the `pd.isna` guard returns `0.0`.  For a
numeric value the function returns `float(time_val)` unchanged (the
sentinel check on line 257 can only match a numeric value whose string
form is `'0'`, and then `0.0 = float(0)`, so the numeric case is the
identity).  For a string, the stripped characters go through `strCore`.
Python can also return `inf`/`nan` for the string inputs `"inf"`/`"nan"`;
those values lie outside the rational model (see `parseUnsigned?`). -/
def safe_convert_time : CellVal → Rat
  | .null => 0
  | .num x => x
  | .str s => strCore (trimSp s.toList)

/-- Model of `clean_percentage_value` (app.py lines 79-86): `None`/NaN and
the sentinels `''`, `'nan'`, `'None'`, `'N/A'` give `0.0`; a numeric value
passes through; otherwise every `'%'` is removed (`str.replace('%', '')`)
and the rest is parsed as a float, with any failure giving `0.0`. -/
def clean_percentage_value : CellVal → Rat
  | .null => 0
  | .num x => x
  | .str s =>
    if trimSp s.toList = [] ∨ trimSp s.toList = "nan".toList
        ∨ trimSp s.toList = "None".toList ∨ trimSp s.toList = "N/A".toList then 0
    else (parseFloatChars? (trimSp (s.toList.filter fun c => c ≠ '%'))).getD 0

/-- Row consumed by `calculate_weighted_score`.  The source receives a
pandas `Series` and reads exactly the keys `'Wrap'`, `'Auto On'`,
`'CSAT Resolution'`, `'CSAT Behaviour'`, `'Quality Score'` via
`row.get(key, 0)`; a `none` field models an absent key (so `row.get`
returns the default `0`).  The `hold` field models a `'Hold'` key that a
row may carry; the source function never reads it. -/
structure SRow where
  wrap : Option CellVal
  autoOn : Option CellVal
  csatRes : Option CellVal
  csatBeh : Option CellVal
  quality : Option CellVal
  hold : Option CellVal
deriving DecidableEq

/-- Model of `row.get(key, 0)`: the stored cell when the key is present,
the numeric default `0` otherwise. -/
def getCell (o : Option CellVal) : CellVal := o.getD (.num 0)

/-- Wrap-time component (app.py line 108):
`max(0, 100 - (wrap / 120 * 100)) if wrap > 0 else 100`. -/
def wrap_score (wrap : Rat) : Rat :=
  if 0 < wrap then max 0 (100 - wrap / 120 * 100) else 100

/-- Auto-on component (app.py line 109):
`min(100, (auto_on / (8*3600) * 100)) if auto_on > 0 else 0`. -/
def auto_on_score (auto_on : Rat) : Rat :=
  if 0 < auto_on then min 100 (auto_on / (8 * 3600) * 100) else 0

/-- The raw weighted sum of app.py lines 112-118 (the local variable
`weighted_score` before rounding), with the source's weights written as
exact rationals: wrap 5%, auto-on 40%, CSAT resolution 10%, CSAT
behaviour 15%, quality 30%. -/
def weighted_sum (r : SRow) : Rat :=
  wrap_score (safe_convert_time (getCell r.wrap)) * (5 / 100)
    + auto_on_score (safe_convert_time (getCell r.autoOn)) * (40 / 100)
    + clean_percentage_value (getCell r.csatRes) * (10 / 100)
    + clean_percentage_value (getCell r.csatBeh) * (15 / 100)
    + clean_percentage_value (getCell r.quality) * (30 / 100)

/-- Floor of a rational, computably (`Int` division rounds toward
negative infinity for the positive denominator). -/
def ratFloor (q : Rat) : Int := q.num / (q.den : Int)

/-- Model of Python 3's `round(q)` on an exact rational: round half to
even (banker's rounding).  The real Python rounds an IEEE double; the
exact-rational model agrees with it away from representation-boundary
cases, and every concrete input used below is far from a half-way
point. -/
def pyRoundInt (q : Rat) : Int :=
  if q - ratFloor q < 1 / 2 then ratFloor q
  else if 1 / 2 < q - ratFloor q then ratFloor q + 1
  else if 2 ∣ ratFloor q then ratFloor q else ratFloor q + 1

/-- Model of Python's `round(x, 2)` over exact rationals. -/
def pyRound2 (q : Rat) : Rat := (pyRoundInt (q * 100) : Int) / 100

/-- Model of `calculate_weighted_score` (app.py lines 95-123): the
weighted sum of the five components, rounded to two decimals (line 120).
The `except` branch (lines 121-123) is unreachable in the model because
every helper is total. -/
def calculate_weighted_score (r : SRow) : Rat := pyRound2 (weighted_sum r)

/-- Per-day record of the `KPI Day` sheet after the module-level
preprocessing (app.py lines 273-290): week/year already stringified,
`Wrap_sec`/`Auto On_sec` already numeric.  `callCount` is kept numeric;
the raw sheet stores it as a string, but no property below depends on
it. -/
structure DayRec where
  empId : String
  name : String
  week : String
  year : String
  wrapSec : Rat
  autoOnSec : Rat
  callCount : Rat
deriving DecidableEq

/-- Per-week record of the `CSAT Score` sheet after `load_sheet` cleaning
(app.py lines 239-243): the three percentage columns are already floats. -/
structure CsatRec where
  empId : String
  week : String
  year : String
  csatRes : Rat
  csatBeh : Rat
  quality : Rat
deriving DecidableEq

/-- A row of the `weekly_metrics` frame of `get_weekly_top_performers`
after the groupby (app.py lines 144-148) and the left merge (lines
154-159).  A `none` CSAT field models the NaN produced by a failed left
join. -/
structure MetricRow where
  empId : String
  name : String
  wrapSec : Rat
  autoOnSec : Rat
  callCount : Rat
  csatRes : Option Rat
  csatBeh : Option Rat
  quality : Option Rat
deriving DecidableEq

/-- Arithmetic mean, the pandas `'mean'` aggregation (groups are always
non-empty, so the division is never by zero). -/
def listMean (xs : List Rat) : Rat := xs.sum / xs.length

/-- First-occurrence deduplication, used to model the groupby key set.
(pandas sorts group keys; only membership and length of the grouped
result are used below, so first-occurrence order is an adequate model.) -/
def dedupAux {α : Type} [DecidableEq α] : List α → List α → List α
  | [], _ => []
  | k :: ks, seen => if k ∈ seen then dedupAux ks seen else k :: dedupAux ks (k :: seen)

/-- Deduplicate, keeping the first occurrence of each element. -/
def dedupFirst {α : Type} [DecidableEq α] (l : List α) : List α := dedupAux l []

/-- Week/year filter on daily records (app.py line 130):
`(day_df['Week'] == str(week)) & (day_df['Year'] == str(year))`. -/
def weekFilterDay (day : List DayRec) (week year : String) : List DayRec :=
  day.filter fun r => r.week == week && r.year == year

/-- Week/year filter on satisfaction records (app.py line 133). -/
def weekFilterCsat (csat : List CsatRec) (week year : String) : List CsatRec :=
  csat.filter fun c => c.week == week && c.year == year

/-- One group of the `groupby(['EMP ID', 'NAME']).agg(...)` of app.py
lines 144-148: mean of `Wrap_sec` and `Auto On_sec`, sum of
`Call Count`, for the rows carrying the given key. -/
def groupRow (rows : List DayRec) (k : String × String) : MetricRow :=
  { empId := k.1
    name := k.2
    wrapSec := listMean ((rows.filter fun r => r.empId == k.1 && r.name == k.2).map (·.wrapSec))
    autoOnSec := listMean ((rows.filter fun r => r.empId == k.1 && r.name == k.2).map (·.autoOnSec))
    callCount := ((rows.filter fun r => r.empId == k.1 && r.name == k.2).map (·.callCount)).sum
    csatRes := none
    csatBeh := none
    quality := none }

/-- The grouped frame of app.py lines 144-148: one `MetricRow` per
distinct `(EMP ID, NAME)` pair. -/
def groupAgg (rows : List DayRec) : List MetricRow :=
  (dedupFirst (rows.map fun r => (r.empId, r.name))).map (groupRow rows)

/-- Fill a metric row with the CSAT columns of one matching satisfaction
record (a successful join). -/
def mergeRow (m : MetricRow) (c : CsatRec) : MetricRow :=
  { m with csatRes := some c.csatRes, csatBeh := some c.csatBeh, quality := some c.quality }

/-- Model of `pd.merge(..., on='EMP ID', how='left')` (app.py lines
154-159): each left row is paired with every matching right row; a left
row without a match survives once, its CSAT columns NaN (`none`). -/
def mergeLeft (ms : List MetricRow) (cs : List CsatRec) : List MetricRow :=
  ms.flatMap fun m =>
    match cs.filter (fun c => c.empId == m.empId) with
    | [] => [m]
    | hits => hits.map (mergeRow m)

/-- NaN-aware cell of a merged CSAT column: a failed join gives NaN
(`CellVal.null`), a successful one the numeric value. -/
def cellOfOpt : Option Rat → CellVal
  | none => CellVal.null
  | some v => CellVal.num v

/-- The `Series` that `weekly_metrics.apply(calculate_weighted_score,
axis=1)` (app.py line 162) hands to the scorer.  At that point the frame's
columns are `EMP ID, NAME, Wrap_sec, Auto On_sec, Call Count,
CSAT Resolution, CSAT Behaviour, Quality Score` — there is no `'Wrap'`
and no `'Auto On'` column (those display columns are created only later,
lines 173-174), so `row.get('Wrap', 0)` and `row.get('Auto On', 0)`
return the default `0`: the `wrap` and `autoOn` keys are absent
(`none`). -/
def toSRow (m : MetricRow) : SRow :=
  { wrap := none
    autoOn := none
    csatRes := some (cellOfOpt m.csatRes)
    csatBeh := some (cellOfOpt m.csatBeh)
    quality := some (cellOfOpt m.quality)
    hold := none }

/-- Attach the `_weighted_score` column (app.py line 162). -/
def scoredRows (ms : List MetricRow) : List (MetricRow × Rat) :=
  ms.map fun m => (m, calculate_weighted_score (toSRow m))

/-- Insert into a list sorted in descending key order, after any element
with an equal key. -/
def insertByDesc {α : Type} (key : α → Rat) (x : α) : List α → List α
  | [] => [x]
  | y :: ys => if key y < key x then x :: y :: ys else y :: insertByDesc key x ys

/-- Insertion sort, descending by key.  The source's
`sort_values('_weighted_score', ascending=False)` (app.py line 165) uses
pandas' default `kind='quicksort'`, which carries no stability contract;
only permutation-invariant facts (membership, length) are proved about
the sorted list below. -/
def sortByDesc {α : Type} (key : α → Rat) : List α → List α
  | [] => []
  | x :: xs => insertByDesc key x (sortByDesc key xs)

/-- The scored, sorted ranking of `get_weekly_top_performers` before
`head(5)` (app.py lines 127-165, with `year` provided): empty result if
the filtered daily or satisfaction data is empty (lines 140-141),
otherwise group, left-merge, score and sort descending. -/
def ranked_rows (day : List DayRec) (csat : List CsatRec) (week year : String) :
    List (MetricRow × Rat) :=
  if (weekFilterDay day week year).isEmpty || (weekFilterCsat csat week year).isEmpty then []
  else
    sortByDesc Prod.snd
      (scoredRows (mergeLeft (groupAgg (weekFilterDay day week year))
        (weekFilterCsat csat week year)))

/-- Model of `get_weekly_top_performers` (app.py lines 125-189): the
ranking truncated to the top 5 (`head(5)`, line 165).  The trailing
display formatting (lines 167-186) only rewrites cells and projects
columns, preserving row order and count, so it is not modelled. -/
def get_weekly_top_performers (day : List DayRec) (csat : List CsatRec) (week year : String) :
    List (MetricRow × Rat) :=
  (ranked_rows day csat week year).take 5

/-- Modelled from the spec: the spec's `rank_top_performers` contract
(§4.2) exposes the top-count `n` as a parameter, while the source
instantiates it to 5 via `head(5)`; this definition is the spec's
parameterised form over already-scored rows, with the sort of §4.2
step 5. -/
def rank_top_performers (rows : List (MetricRow × Rat)) (n : Nat) : List (MetricRow × Rat) :=
  (sortByDesc Prod.snd rows).take n

/-- The aggregated employee row of the spec's §4.2 scoring policy, for the
refinement comparison. -/
structure SpecRow where
  hold : Rat
  wrap : Rat
  autoOn : Rat
  csatRes : Rat
  csatBeh : Rat
deriving DecidableEq

/-- Maximum of a list of rationals (the spec's `max` over the input set). -/
def listMax (xs : List Rat) : Rat := xs.foldl max (xs.headD 0)

/-- Minimum of a list of rationals (the spec's `min` over the input set). -/
def listMin (xs : List Rat) : Rat := xs.foldl min (xs.headD 0)

/-- The spec's min-max normalized, inverted component (§4.2 step 2):
`100 * (max - value) / (max - min)` when `max != min`, else `50`. -/
def minmax_inverted (xs : List Rat) (v : Rat) : Rat :=
  if listMax xs = listMin xs then 50 else 100 * (listMax xs - v) / (listMax xs - listMin xs)

/-- The spec's min-max normalized component without inversion (§4.2
step 3): `100 * (value - min) / (max - min)` when `max != min`, else `50`. -/
def minmax_plain (xs : List Rat) (v : Rat) : Rat :=
  if listMax xs = listMin xs then 50 else 100 * (v - listMin xs) / (listMax xs - listMin xs)

/-- Modelled from the spec: the composite score of §4.2 steps 2-4 with the
default `ScoreWeights` (hold 0.05, wrap 0.05, auto-on 0.40, CSAT
behaviour 0.25, CSAT resolution 0.25), written only for the refinement
comparison against the source's `calculate_weighted_score`. -/
def spec_composite_score (rows : List SpecRow) (r : SpecRow) : Rat :=
  minmax_inverted (rows.map (·.hold)) r.hold * (5 / 100)
    + minmax_inverted (rows.map (·.wrap)) r.wrap * (5 / 100)
    + minmax_plain (rows.map (·.autoOn)) r.autoOn * (40 / 100)
    + minmax_plain (rows.map (·.csatBeh)) r.csatBeh * (25 / 100)
    + minmax_plain (rows.map (·.csatRes)) r.csatRes * (25 / 100)

/-- Inputs whose numeric content is certainly non-negative: `null`, a
non-negative number, or a string containing no minus sign. -/
def inputNonneg : CellVal → Bool
  | .null => true
  | .num x => decide (0 ≤ x)
  | .str s => decide ('-' ∉ s.toList)

/-! Helper lemmas about the character-list machinery. -/

theorem mem_of_mem_trimSp {cs : List Char} {c : Char} (h : c ∈ trimSp cs) : c ∈ cs := by
  unfold trimSp at h
  rw [List.mem_reverse] at h
  have h1 := (List.dropWhile_sublist isSp).subset h
  rw [List.mem_reverse] at h1
  exact (List.dropWhile_sublist isSp).subset h1

theorem splitOnChar_ne_nil (sep : Char) (cs : List Char) : splitOnChar sep cs ≠ [] := by
  induction cs with
  | nil => simp [splitOnChar]
  | cons c tl ih =>
    rw [splitOnChar]
    by_cases hc : c = sep
    · simp [hc]
    · rw [if_neg hc]
      rcases h : splitOnChar sep tl with _ | ⟨g, gs⟩
      · exact absurd h ih
      · simp

theorem splitOnChar_length (sep : Char) (cs : List Char) :
    (splitOnChar sep cs).length = cs.count sep + 1 := by
  induction cs with
  | nil => simp [splitOnChar]
  | cons c tl ih =>
    rw [splitOnChar]
    by_cases hc : c = sep
    · rw [if_pos hc, List.count_cons]
      simp only [List.length_cons, ih, hc, beq_self_eq_true, if_pos]
    · rw [if_neg hc, List.count_cons]
      have hne : (c == sep) = false := by
        simp [hc]
      rcases h : splitOnChar sep tl with _ | ⟨g, gs⟩
      · exact absurd h (splitOnChar_ne_nil sep tl)
      · have hlen := ih
        rw [h] at hlen
        simp only [List.length_cons] at hlen ⊢
        rw [hne]
        simpa using hlen

theorem mem_of_mem_splitOnChar {sep : Char} {cs : List Char} {p : List Char} {c : Char}
    (hp : p ∈ splitOnChar sep cs) (hc : c ∈ p) : c ∈ cs := by
  induction cs generalizing p with
  | nil =>
    simp only [splitOnChar, List.mem_singleton] at hp
    subst hp
    simp at hc
  | cons a tl ih =>
    rw [splitOnChar] at hp
    by_cases ha : a = sep
    · rw [if_pos ha] at hp
      rcases List.mem_cons.mp hp with rfl | hp
      · simp at hc
      · exact List.mem_cons_of_mem _ (ih hp hc)
    · rw [if_neg ha] at hp
      rcases h : splitOnChar sep tl with _ | ⟨g, gs⟩
      · exact absurd h (splitOnChar_ne_nil sep tl)
      · rw [h] at hp
        rcases List.mem_cons.mp hp with rfl | hp
        · rcases List.mem_cons.mp hc with rfl | hc
          · exact List.mem_cons_self _ _
          · refine List.mem_cons_of_mem _ (ih ?_ hc)
            rw [h]
            exact List.mem_cons_self _ _
        · refine List.mem_cons_of_mem _ (ih ?_ hc)
          rw [h]
          exact List.mem_cons_of_mem _ hp

theorem parseUnsigned?_nonneg {cs : List Char} {q : Rat} (h : parseUnsigned? cs = some q) :
    0 ≤ q := by
  unfold parseUnsigned? at h
  split at h
  · split at h
    · rw [Option.some_inj] at h
      subst h
      positivity
    · rw [Option.some_inj] at h
      subst h
      positivity
    · exact absurd h (by simp)
  · exact absurd h (by simp)

theorem parseSigned?_nonneg {cs : List Char} {q : Rat} (hm : '-' ∉ cs)
    (h : parseSigned? cs = some q) : 0 ≤ q := by
  rcases cs with _ | ⟨c, r⟩
  · exact absurd h (by simp [parseSigned?])
  · rw [parseSigned?] at h
    have hcne : c ≠ '-' := fun hc => hm (hc ▸ List.mem_cons_self _ _)
    rw [if_neg hcne] at h
    by_cases hplus : c = '+'
    · rw [if_pos hplus] at h
      exact parseUnsigned?_nonneg h
    · rw [if_neg hplus] at h
      exact parseUnsigned?_nonneg h

theorem parseFloatChars?_nonneg {cs : List Char} {q : Rat} (hm : '-' ∉ cs)
    (h : parseFloatChars? cs = some q) : 0 ≤ q :=
  parseSigned?_nonneg (fun hc => hm (mem_of_mem_trimSp hc)) h

theorem no_minus_part {cs p : List Char} (hm : '-' ∉ cs) (hp : p ∈ splitOnChar ':' cs) :
    '-' ∉ p := fun hc => hm (mem_of_mem_splitOnChar hp hc)

theorem strCore_nonneg {cs : List Char} (hm : '-' ∉ cs) : 0 ≤ strCore cs := by
  unfold strCore
  split
  · exact le_refl 0
  split
  · split
    next p1 p2 p3 hsplit =>
      split
      next a b c h1 h2 h3 =>
        have hn1 : 0 ≤ a :=
          parseFloatChars?_nonneg (no_minus_part hm (by rw [hsplit]; simp)) h1
        have hn2 : 0 ≤ b :=
          parseFloatChars?_nonneg (no_minus_part hm (by rw [hsplit]; simp)) h2
        have hn3 : 0 ≤ c :=
          parseFloatChars?_nonneg (no_minus_part hm (by rw [hsplit]; simp)) h3
        positivity
      next => exact le_refl 0
    next p1 p2 hsplit =>
      split
      next a b h1 h2 =>
        have hn1 : 0 ≤ a :=
          parseFloatChars?_nonneg (no_minus_part hm (by rw [hsplit]; simp)) h1
        have hn2 : 0 ≤ b :=
          parseFloatChars?_nonneg (no_minus_part hm (by rw [hsplit]; simp)) h2
        positivity
      next => exact le_refl 0
    next => exact le_refl 0
  · rcases hq : parseFloatChars? cs with _ | q
    · simp
    · simpa using parseFloatChars?_nonneg hm hq

theorem strCore_zero_of_many_colons {cs : List Char}
    (h : 3 < (splitOnChar ':' cs).length) : strCore cs = 0 := by
  unfold strCore
  have hsent : ¬(cs = [] ∨ cs = ['0'] ∨ cs = "00:00".toList ∨ cs = "00:00:00".toList) := by
    rintro (rfl | rfl | rfl | rfl) <;> exact absurd h (by decide)
  rw [if_neg hsent]
  have hcol : ':' ∈ cs := by
    have hcount : 0 < cs.count ':' := by
      have := splitOnChar_length ':' cs
      omega
    exact List.count_pos_iff.mp hcount
  rw [if_pos hcol]
  split
  next p1 p2 p3 hsplit =>
    rw [hsplit] at h
    simp at h
  next p1 p2 hsplit =>
    rw [hsplit] at h
    simp at h
  next => rfl

/-! Rounding and component-bound lemmas. -/

theorem ratFloor_eq_floor (q : Rat) : ratFloor q = ⌊q⌋ := by
  rw [Rat.floor_def]
  rfl

theorem floor_le_pyRoundInt (q : Rat) : ⌊q⌋ ≤ pyRoundInt q := by
  unfold pyRoundInt
  rw [ratFloor_eq_floor]
  split
  · exact le_refl _
  split
  · omega
  split
  · exact le_refl _
  · omega

theorem pyRoundInt_le_ceil (q : Rat) : pyRoundInt q ≤ ⌈q⌉ := by
  unfold pyRoundInt
  rw [ratFloor_eq_floor]
  have hfl : (⌊q⌋ : Rat) ≤ q := Int.floor_le q
  split
  · exact Int.floor_le_ceil q
  next hlt =>
    push_neg at hlt
    have hstep : ⌊q⌋ + 1 ≤ ⌈q⌉ := by
      rw [Int.add_one_le_ceil_iff]
      have : (0 : Rat) < 1 / 2 := by norm_num
      calc (⌊q⌋ : Rat) < ⌊q⌋ + 1 / 2 := by linarith
        _ ≤ q := by linarith
    split
    · exact hstep
    split
    · exact Int.floor_le_ceil q
    · exact hstep

theorem pyRound2_nonneg {x : Rat} (hx : 0 ≤ x) : 0 ≤ pyRound2 x := by
  unfold pyRound2
  have h1 : (0 : Int) ≤ ⌊x * 100⌋ := Int.floor_nonneg.mpr (by positivity)
  have h2 : (0 : Int) ≤ pyRoundInt (x * 100) := le_trans h1 (floor_le_pyRoundInt _)
  have : (0 : Rat) ≤ (pyRoundInt (x * 100) : Rat) := by exact_mod_cast h2
  positivity

theorem pyRound2_le_100 {x : Rat} (hx : x ≤ 100) : pyRound2 x ≤ 100 := by
  unfold pyRound2
  have h1 : ⌈x * 100⌉ ≤ (10000 : Int) := Int.ceil_le.mpr (by push_cast; linarith)
  have h2 : pyRoundInt (x * 100) ≤ (10000 : Int) := le_trans (pyRoundInt_le_ceil _) h1
  have h3 : (pyRoundInt (x * 100) : Rat) ≤ 10000 := by exact_mod_cast h2
  linarith

theorem wrap_score_nonneg (w : Rat) : 0 ≤ wrap_score w := by
  unfold wrap_score
  split
  · exact le_max_left 0 _
  · norm_num

theorem wrap_score_le_100 (w : Rat) : wrap_score w ≤ 100 := by
  unfold wrap_score
  split
  next hw =>
    have : w / 120 * 100 = w * (5 / 6) := by ring
    refine max_le (by norm_num) ?_
    rw [this]
    nlinarith
  · exact le_refl _

theorem auto_on_score_nonneg (a : Rat) : 0 ≤ auto_on_score a := by
  unfold auto_on_score
  split
  next ha =>
    refine le_min (by norm_num) ?_
    positivity
  · exact le_refl 0

theorem auto_on_score_le_100 (a : Rat) : auto_on_score a ≤ 100 := by
  unfold auto_on_score
  split
  · exact min_le_left _ _
  · norm_num

/-! Lemmas about deduplication and the descending insertion sort. -/

theorem mem_dedupAux {α : Type} [DecidableEq α] (l : List α) (seen : List α) (a : α) :
    a ∈ dedupAux l seen ↔ a ∈ l ∧ a ∉ seen := by
  induction l generalizing seen with
  | nil => simp [dedupAux]
  | cons k ks ih =>
    by_cases hk : k ∈ seen
    · rw [dedupAux, if_pos hk, ih]
      constructor
      · rintro ⟨h1, h2⟩
        exact ⟨List.mem_cons_of_mem _ h1, h2⟩
      · rintro ⟨h1, h2⟩
        rcases List.mem_cons.mp h1 with rfl | h1
        · exact absurd hk h2
        · exact ⟨h1, h2⟩
    · rw [dedupAux, if_neg hk]
      constructor
      · intro h
        rcases List.mem_cons.mp h with rfl | h
        · exact ⟨List.mem_cons_self _ _, hk⟩
        · obtain ⟨h1, h2⟩ := (ih (k :: seen)).mp h
          refine ⟨List.mem_cons_of_mem _ h1, fun hs => h2 (List.mem_cons_of_mem _ hs)⟩
      · rintro ⟨h1, h2⟩
        rcases List.mem_cons.mp h1 with rfl | h1
        · exact List.mem_cons_self _ _
        · by_cases hak : a = k
          · subst hak
            exact List.mem_cons_self _ _
          · refine List.mem_cons_of_mem _ ((ih (k :: seen)).mpr ⟨h1, fun hs => ?_⟩)
            rcases List.mem_cons.mp hs with h | h
            · exact hak h
            · exact h2 h

theorem mem_dedupFirst {α : Type} [DecidableEq α] (l : List α) (a : α) :
    a ∈ dedupFirst l ↔ a ∈ l := by
  rw [dedupFirst, mem_dedupAux]
  simp

theorem mem_insertByDesc {α : Type} (key : α → Rat) (x a : α) (l : List α) :
    a ∈ insertByDesc key x l ↔ a = x ∨ a ∈ l := by
  induction l with
  | nil => simp [insertByDesc]
  | cons y ys ih =>
    rw [insertByDesc]
    split
    · simp
    · rw [List.mem_cons, ih, List.mem_cons]
      tauto

theorem length_insertByDesc {α : Type} (key : α → Rat) (x : α) (l : List α) :
    (insertByDesc key x l).length = l.length + 1 := by
  induction l with
  | nil => simp [insertByDesc]
  | cons y ys ih =>
    rw [insertByDesc]
    split
    · simp
    · simp [ih]

theorem mem_sortByDesc {α : Type} (key : α → Rat) (a : α) (l : List α) :
    a ∈ sortByDesc key l ↔ a ∈ l := by
  induction l with
  | nil => simp [sortByDesc]
  | cons x xs ih =>
    rw [sortByDesc, mem_insertByDesc, ih, List.mem_cons]

theorem length_sortByDesc {α : Type} (key : α → Rat) (l : List α) :
    (sortByDesc key l).length = l.length := by
  induction l with
  | nil => simp [sortByDesc]
  | cons x xs ih =>
    rw [sortByDesc, length_insertByDesc, ih, List.length_cons]

/-! Claim theorems. -/

/-- C2, counterexample: `safe_convert_time` does not keep the last three
colon components of a malformed multi-colon string.  On
`"12:01:02:03"` the length-4 split matches neither the 3-part nor the
2-part arm, the fall-through `float(time_str)` raises, and the result is
`0.0` — not `parse_duration("01:02:03") = 3723.0` as claimed. -/
theorem multi_colon_collapse_refuted :
    safe_convert_time (CellVal.str "12:01:02:03") = 0
      ∧ safe_convert_time (CellVal.str "01:02:03") = 3723
      ∧ (0 : Rat) ≠ 3723 := by
  refine ⟨rfl, ?_, by norm_num⟩
  have h : safe_convert_time (CellVal.str "01:02:03") = (1 : Rat) * 3600 + 2 * 60 + 3 := rfl
  rw [h]
  norm_num

/-- C2 (corrected): for every colon-delimited string with more than 3
colon-separated components, `safe_convert_time` returns `0.0` — the
length dispatch recognises only 2 or 3 components, and the fall-through
`float(...)` conversion always fails on a string still containing a
colon. -/
theorem multi_colon_returns_zero (s : String)
    (h : 3 < (splitOnChar ':' (trimSp s.toList)).length) :
    safe_convert_time (CellVal.str s) = 0 :=
  strCore_zero_of_many_colons h

/-- C2 witness: the amended statement evaluated at `"1:2:3:4"`. -/
theorem multi_colon_returns_zero_witness :
    3 < (splitOnChar ':' (trimSp "1:2:3:4".toList)).length
      ∧ safe_convert_time (CellVal.str "1:2:3:4") = 0 :=
  ⟨by decide, multi_colon_returns_zero "1:2:3:4" (by decide)⟩

/-- C3, counterexample: `safe_convert_time` is not bounded below by
`0.0` — a negative numeric input passes through unchanged
(`isinstance(time_val, (int, float))` returns `float(time_val)`), so
`safe_convert_time(-5) = -5.0 < 0`. -/
theorem negative_duration_passthrough :
    safe_convert_time (CellVal.num (-5)) = -5 ∧ ¬ (0 : Rat) ≤ (-5 : Rat) :=
  ⟨rfl, by norm_num⟩

/-- C3 (corrected): `safe_convert_time` is total — every branch either
produces a value or is caught by the `except` handler returning `0.0` —
but the result is only guaranteed non-negative on inputs whose numeric
content is non-negative: a null, a non-negative number, or a string
without a minus sign.  (Negative numerics and negative-component strings
pass their sign through; in real Python the strings `"inf"`/`"nan"` can
additionally produce non-finite floats, outside this rational model.) -/
theorem safe_convert_time_nonneg_on_clean_input (v : CellVal) (h : inputNonneg v = true) :
    0 ≤ safe_convert_time v := by
  cases v with
  | null => exact le_refl 0
  | num x => exact of_decide_eq_true h
  | str s =>
    have hm : '-' ∉ s.toList := of_decide_eq_true h
    exact strCore_nonneg fun hc => hm (mem_of_mem_trimSp hc)

/-- C3 witness: the amended statement evaluated at the string `"2:30"`. -/
theorem safe_convert_time_nonneg_on_clean_input_witness :
    inputNonneg (CellVal.str "2:30") = true ∧ 0 ≤ safe_convert_time (CellVal.str "2:30") :=
  ⟨by decide, safe_convert_time_nonneg_on_clean_input (CellVal.str "2:30") (by decide)⟩

/-- C1, counterexample: the source's composite score is not the spec's
min-max-normalized weighted sum with weights 0.05/0.05/0.40/0.25/0.25.
For the two-employee set A = (hold 0, wrap 0, auto-on 28800, CSAT-res
100, CSAT-beh 100), B = (60, 60, 0, 50, 50), the spec formula scores A
at 100, while `calculate_weighted_score` on A's row (quality 0) gives
70 — the source uses fixed-scale components and the weight set
wrap 0.05, auto-on 0.40, CSAT-res 0.10, CSAT-beh 0.15, quality 0.30. -/
theorem spec_minmax_composite_mismatch :
    spec_composite_score [⟨0, 0, 28800, 100, 100⟩, ⟨60, 60, 0, 50, 50⟩] ⟨0, 0, 28800, 100, 100⟩
        = 100
      ∧ calculate_weighted_score
          ⟨some (.num 0), some (.num 28800), some (.num 100), some (.num 100), some (.num 0),
            some (.num 0)⟩ = 70
      ∧ (100 : Rat) ≠ 70 := by
  refine ⟨?_, ?_, by norm_num⟩
  · norm_num [spec_composite_score, minmax_inverted, minmax_plain, listMax, listMin,
      max_def, min_def]
  · have h : calculate_weighted_score
        ⟨some (.num 0), some (.num 28800), some (.num 100), some (.num 100), some (.num 0),
          some (.num 0)⟩
        = pyRound2 (wrap_score 0 * (5 / 100) + auto_on_score 28800 * (40 / 100)
            + (100 : Rat) * (10 / 100) + (100 : Rat) * (15 / 100) + (0 : Rat) * (30 / 100)) :=
      rfl
    rw [h, wrap_score, auto_on_score]
    norm_num [min_def, pyRound2, pyRoundInt, ratFloor]

/-- C1 (corrected): the composite score equals
`round2(wrap_score*0.05 + auto_on_score*0.40 + csat_res*0.10 +
csat_beh*0.15 + quality*0.30)`, where `wrap_score` and `auto_on_score`
are the fixed-scale (not min-max) components of app.py lines 108-109;
quality contributes 30% and hold time does not contribute at all. -/
theorem calculate_weighted_score_formula (w a res beh q h : Rat) :
    calculate_weighted_score
        ⟨some (.num w), some (.num a), some (.num res), some (.num beh), some (.num q),
          some (.num h)⟩
      = pyRound2 (wrap_score w * (5 / 100) + auto_on_score a * (40 / 100) + res * (10 / 100)
          + beh * (15 / 100) + q * (30 / 100)) := rfl

/-- C4, counterexample: there is no flat-50 fallback for identical
values.  In a two-row set where both rows have wrap seconds 30, each
row's wrap component is `max(0, 100 - 30/120*100) = 75`, not 50 — the
component is computed from a fixed scale, independently of the rest of
the input set. -/
theorem identical_wrap_component_not_fifty :
    ([⟨some (.num 30), some (.num 0), some (.num 50), some (.num 50), some (.num 50),
        some (.num 0)⟩,
      ⟨some (.num 30), some (.num 0), some (.num 50), some (.num 50), some (.num 50),
        some (.num 0)⟩] : List SRow).map
        (fun r => wrap_score (safe_convert_time (getCell r.wrap))) = [75, 75]
      ∧ (75 : Rat) ≠ 50 := by
  constructor
  · have h30 : wrap_score (safe_convert_time (getCell (some (CellVal.num 30)))) = 75 := by
      have e : wrap_score (safe_convert_time (getCell (some (CellVal.num 30))))
          = wrap_score 30 := rfl
      rw [e, wrap_score, if_pos (by norm_num : (0 : Rat) < 30)]
      norm_num [max_def]
    simp [h30]
  · norm_num

/-- C4 (corrected): the wrap component uses no min-max normalization and
no degenerate-input fallback; for a positive wrap time `w` (identical
across the set or not) the per-row component `wrap_score w` equals 50
exactly when `w = 60`, and hold seconds have no component at all. -/
theorem wrap_score_eq_fifty_iff (w : Rat) (hw : 0 < w) : wrap_score w = 50 ↔ w = 60 := by
  rw [wrap_score, if_pos hw]
  have hrw : w / 120 * 100 = w * (5 / 6) := by ring
  rcases le_or_lt (100 - w / 120 * 100) 0 with hle | hpos
  · rw [max_eq_left hle]
    constructor
    · intro h0
      exact absurd h0 (by norm_num)
    · rintro rfl
      rw [hrw] at hle
      norm_num at hle
  · rw [max_eq_right hpos.le, hrw]
    constructor
    · intro h0
      linarith
    · rintro rfl
      norm_num

/-- C4 witness: the amended statement evaluated at `w = 60`. -/
theorem wrap_score_eq_fifty_iff_witness :
    (0 : Rat) < 60 ∧ (wrap_score 60 = 50 ↔ (60 : Rat) = 60) :=
  ⟨by norm_num, wrap_score_eq_fifty_iff 60 (by norm_num)⟩

/-- C5, counterexample: two rows identical except for hold seconds (0
versus 300, with two distinct hold values in the set) receive exactly
equal composite scores — the scorer never reads a hold field, so the
lower-hold row does not get a strictly larger score. -/
theorem hold_change_leaves_score_equal :
    calculate_weighted_score
        ⟨some (.num 30), some (.num 10000), some (.num 80), some (.num 90), some (.num 70),
          some (.num 0)⟩
      = calculate_weighted_score
        ⟨some (.num 30), some (.num 10000), some (.num 80), some (.num 90), some (.num 70),
          some (.num 300)⟩
      ∧ ¬ (calculate_weighted_score
            ⟨some (.num 30), some (.num 10000), some (.num 80), some (.num 90), some (.num 70),
              some (.num 300)⟩
          < calculate_weighted_score
            ⟨some (.num 30), some (.num 10000), some (.num 80), some (.num 90), some (.num 70),
              some (.num 0)⟩) :=
  ⟨rfl, fun hlt => absurd hlt (lt_irrefl _)⟩

/-- C5 (corrected): the composite score is entirely independent of the
hold field — rows that agree on the five keys the scorer reads receive
identical scores whatever their hold values are, so decreasing hold
seconds never changes (in particular never strictly increases) the
score. -/
theorem score_independent_of_hold (w a res beh q : Option CellVal) (h1 h2 : Option CellVal) :
    calculate_weighted_score ⟨w, a, res, beh, q, h1⟩
      = calculate_weighted_score ⟨w, a, res, beh, q, h2⟩ := rfl

/-- C9, counterexample: rounding to two decimals does not make every
pair of sums closer than half a hundredth tie.  Two rows differing only
in CSAT resolution (1.04 versus 1.06) have unrounded weighted sums
0.104 and 0.106 — a gap of 0.002 < 0.005 — yet they straddle the
rounding boundary and receive the distinct scores 0.10 and 0.11. -/
theorem sub_half_hundredth_gap_distinct_scores :
    weighted_sum ⟨some (.num 120), some (.num 0), some (.num (53 / 50)), some (.num 0),
          some (.num 0), none⟩
        - weighted_sum ⟨some (.num 120), some (.num 0), some (.num (26 / 25)), some (.num 0),
          some (.num 0), none⟩ = 1 / 500
      ∧ (1 / 500 : Rat) < 1 / 200
      ∧ calculate_weighted_score ⟨some (.num 120), some (.num 0), some (.num (26 / 25)),
          some (.num 0), some (.num 0), none⟩
        ≠ calculate_weighted_score ⟨some (.num 120), some (.num 0), some (.num (53 / 50)),
          some (.num 0), some (.num 0), none⟩ := by
  have hw : wrap_score 120 = 0 := by
    rw [wrap_score, if_pos (by norm_num : (0 : Rat) < 120)]
    norm_num [max_def]
  have ha : auto_on_score 0 = 0 := by
    rw [auto_on_score, if_neg (by norm_num)]
  have e1 : weighted_sum ⟨some (.num 120), some (.num 0), some (.num (26 / 25)), some (.num 0),
        some (.num 0), none⟩
      = wrap_score 120 * (5 / 100) + auto_on_score 0 * (40 / 100) + (26 / 25 : Rat) * (10 / 100)
        + (0 : Rat) * (15 / 100) + (0 : Rat) * (30 / 100) := rfl
  have e2 : weighted_sum ⟨some (.num 120), some (.num 0), some (.num (53 / 50)), some (.num 0),
        some (.num 0), none⟩
      = wrap_score 120 * (5 / 100) + auto_on_score 0 * (40 / 100) + (53 / 50 : Rat) * (10 / 100)
        + (0 : Rat) * (15 / 100) + (0 : Rat) * (30 / 100) := rfl
  have s1 : weighted_sum ⟨some (.num 120), some (.num 0), some (.num (26 / 25)), some (.num 0),
      some (.num 0), none⟩ = 13 / 125 := by
    rw [e1, hw, ha]
    norm_num
  have s2 : weighted_sum ⟨some (.num 120), some (.num 0), some (.num (53 / 50)), some (.num 0),
      some (.num 0), none⟩ = 53 / 500 := by
    rw [e2, hw, ha]
    norm_num
  refine ⟨by rw [s1, s2]; norm_num, by norm_num, ?_⟩
  have c1 : calculate_weighted_score ⟨some (.num 120), some (.num 0), some (.num (26 / 25)),
      some (.num 0), some (.num 0), none⟩ = 1 / 10 := by
    rw [calculate_weighted_score, s1]
    norm_num [pyRound2, pyRoundInt, ratFloor]
  have c2 : calculate_weighted_score ⟨some (.num 120), some (.num 0), some (.num (53 / 50)),
      some (.num 0), some (.num 0), none⟩ = 11 / 100 := by
    rw [calculate_weighted_score, s2]
    norm_num [pyRound2, pyRoundInt, ratFloor]
  rw [c1, c2]
  norm_num

/-- C9 (corrected): every composite score is an exact integer multiple
of 0.01 (`round(_, 2)` on line 120), so rows whose unrounded sums round
to the same hundredth tie; but two sums closer than half a hundredth can
still straddle a rounding boundary and receive different scores. -/
theorem score_is_integer_hundredths (r : SRow) :
    (100 * calculate_weighted_score r).den = 1 := by
  rw [calculate_weighted_score, pyRound2]
  have h : (100 : Rat) * ((pyRoundInt (weighted_sum r * 100) : Int) / 100)
      = ((pyRoundInt (weighted_sum r * 100) : Int) : Rat) := by
    field_simp
  rw [h, Rat.den_intCast]

/-- C10 (confirmed): with CSAT and quality percentages in `[0, 100]`, the
composite score lies in `[0, 100]`; moreover the wrap component is
clamped to 0 for every wrap time of at least 120 seconds and is 100 at
wrap 0, and the auto-on component is capped at 100 for every auto-on
duration of at least 28800 seconds and is 0 at auto-on 0. -/
theorem score_bounds_and_clamps (w a res beh q hold : Rat)
    (hres0 : 0 ≤ res) (hres1 : res ≤ 100) (hbeh0 : 0 ≤ beh) (hbeh1 : beh ≤ 100)
    (hq0 : 0 ≤ q) (hq1 : q ≤ 100) :
    (0 ≤ calculate_weighted_score
        ⟨some (.num w), some (.num a), some (.num res), some (.num beh), some (.num q),
          some (.num hold)⟩
      ∧ calculate_weighted_score
        ⟨some (.num w), some (.num a), some (.num res), some (.num beh), some (.num q),
          some (.num hold)⟩ ≤ 100)
      ∧ (120 ≤ w → wrap_score w = 0)
      ∧ wrap_score 0 = 100
      ∧ (28800 ≤ a → auto_on_score a = 100)
      ∧ auto_on_score 0 = 0 := by
  have e : weighted_sum ⟨some (.num w), some (.num a), some (.num res), some (.num beh),
        some (.num q), some (.num hold)⟩
      = wrap_score w * (5 / 100) + auto_on_score a * (40 / 100) + res * (10 / 100)
        + beh * (15 / 100) + q * (30 / 100) := rfl
  have hw0 := wrap_score_nonneg w
  have hw1 := wrap_score_le_100 w
  have ha0 := auto_on_score_nonneg a
  have ha1 := auto_on_score_le_100 a
  have hsum0 : 0 ≤ weighted_sum ⟨some (.num w), some (.num a), some (.num res), some (.num beh),
      some (.num q), some (.num hold)⟩ := by
    rw [e]
    nlinarith
  have hsum1 : weighted_sum ⟨some (.num w), some (.num a), some (.num res), some (.num beh),
      some (.num q), some (.num hold)⟩ ≤ 100 := by
    rw [e]
    nlinarith
  refine ⟨⟨pyRound2_nonneg hsum0, pyRound2_le_100 hsum1⟩, ?_, ?_, ?_, ?_⟩
  · intro h120
    rw [wrap_score, if_pos (by linarith : (0 : Rat) < w)]
    have hrw : w / 120 * 100 = w * (5 / 6) := by ring
    have hle : 100 - w / 120 * 100 ≤ 0 := by
      rw [hrw]
      linarith
    exact max_eq_left hle
  · rw [wrap_score, if_neg (by norm_num)]
  · intro h288
    rw [auto_on_score, if_pos (by linarith : (0 : Rat) < a)]
    have hra : a / (8 * 3600) * 100 = a * (1 / 288) := by ring
    have hge : (100 : Rat) ≤ a / (8 * 3600) * 100 := by
      rw [hra]
      linarith
    exact min_eq_left hge
  · rw [auto_on_score, if_neg (by norm_num)]

/-- C10 witness: the bounds and clamps evaluated at wrap 130, auto-on
30000 and all three percentages 50. -/
theorem score_bounds_and_clamps_witness :
    ((0 ≤ calculate_weighted_score
        ⟨some (.num 130), some (.num 30000), some (.num 50), some (.num 50), some (.num 50),
          some (.num 0)⟩
      ∧ calculate_weighted_score
        ⟨some (.num 130), some (.num 30000), some (.num 50), some (.num 50), some (.num 50),
          some (.num 0)⟩ ≤ 100)
      ∧ ((120 : Rat) ≤ 130 → wrap_score 130 = 0)
      ∧ wrap_score 0 = 100
      ∧ ((28800 : Rat) ≤ 30000 → auto_on_score 30000 = 100)
      ∧ auto_on_score 0 = 0) :=
  score_bounds_and_clamps 130 30000 50 50 50 0 (by norm_num) (by norm_num) (by norm_num)
    (by norm_num) (by norm_num) (by norm_num)

/-- C7, counterexample: when the selected period has no satisfaction rows
at all, `get_weekly_top_performers` returns an empty result
(`week_csat_data.empty` guard, app.py lines 140-141) even though an
employee is present in the daily records for that period — the employee
is excluded, contrary to the claim that every such employee still yields
an aggregated row. -/
theorem empty_satisfaction_table_excludes_employee :
    get_weekly_top_performers [⟨"E1", "Alice", "5", "2025", 30, 1000, 10⟩] [] "5" "2025" = []
      ∧ ("E1", "Alice") ∈ ([⟨"E1", "Alice", "5", "2025", 30, 1000, 10⟩] :
          List DayRec).map (fun d => (d.empId, d.name)) :=
  ⟨rfl, by simp⟩

/-- C7 (corrected): provided the period's satisfaction data is
non-empty, an employee present in the daily records but absent from the
satisfaction records still appears in the ranking: the left merge keeps
the row with NaN CSAT columns, the scorer treats them as 0, and —
because the frame handed to the scorer carries `Wrap_sec`/`Auto On_sec`
but not the `'Wrap'`/`'Auto On'` keys the scorer reads — the row's score
is exactly `round2(100*0.05) = 5`.  (If the period has no satisfaction
rows at all, the guard of lines 140-141 empties the result instead.) -/
theorem left_join_includes_missing_csat
    (day : List DayRec) (csat : List CsatRec) (week year eid : String)
    (hd : ∃ d ∈ day, d.week = week ∧ d.year = year ∧ d.empId = eid)
    (hc : ∃ c ∈ csat, c.week = week ∧ c.year = year)
    (hmiss : ∀ c ∈ csat, c.week = week → c.year = year → c.empId ≠ eid) :
    ∃ m, (m, (5 : Rat)) ∈ ranked_rows day csat week year
      ∧ m.empId = eid ∧ m.csatRes = none ∧ m.csatBeh = none := by
  obtain ⟨d, hdmem, hdw, hdy, hde⟩ := hd
  obtain ⟨c0, hcmem, hcw, hcy⟩ := hc
  have hdin : d ∈ weekFilterDay day week year := by
    rw [weekFilterDay, List.mem_filter]
    exact ⟨hdmem, by simp [hdw, hdy]⟩
  have hcin : c0 ∈ weekFilterCsat csat week year := by
    rw [weekFilterCsat, List.mem_filter]
    exact ⟨hcmem, by simp [hcw, hcy]⟩
  have hgd : (weekFilterDay day week year).isEmpty = false := by
    rcases h : weekFilterDay day week year with _ | ⟨x, xs⟩
    · rw [h] at hdin
      simp at hdin
    · rfl
  have hgc : (weekFilterCsat csat week year).isEmpty = false := by
    rcases h : weekFilterCsat csat week year with _ | ⟨x, xs⟩
    · rw [h] at hcin
      simp at hcin
    · rfl
  have hkey : (d.empId, d.name)
      ∈ dedupFirst ((weekFilterDay day week year).map fun r => (r.empId, r.name)) := by
    rw [mem_dedupFirst]
    exact List.mem_map_of_mem _ hdin
  have hm0 : groupRow (weekFilterDay day week year) (d.empId, d.name)
      ∈ groupAgg (weekFilterDay day week year) := by
    rw [groupAgg]
    exact List.mem_map_of_mem _ hkey
  have hfilter : (weekFilterCsat csat week year).filter
      (fun c => c.empId == (groupRow (weekFilterDay day week year) (d.empId, d.name)).empId)
        = [] := by
    rw [List.filter_eq_nil_iff]
    intro c hcw2
    rw [weekFilterCsat, List.mem_filter] at hcw2
    obtain ⟨hcs, hbool⟩ := hcw2
    have hweek : c.week = week ∧ c.year = year := by
      simp only [Bool.and_eq_true, beq_iff_eq] at hbool
      exact hbool
    have hne : c.empId ≠ eid := hmiss c hcs hweek.1 hweek.2
    simp only [groupRow, beq_iff_eq]
    intro hcontra
    exact hne (hcontra.trans hde)
  have hmerge : groupRow (weekFilterDay day week year) (d.empId, d.name)
      ∈ mergeLeft (groupAgg (weekFilterDay day week year)) (weekFilterCsat csat week year) := by
    rw [mergeLeft, List.mem_flatMap]
    refine ⟨groupRow (weekFilterDay day week year) (d.empId, d.name), hm0, ?_⟩
    rw [hfilter]
    simp
  have hscore : calculate_weighted_score
      (toSRow (groupRow (weekFilterDay day week year) (d.empId, d.name))) = 5 := by
    have e : calculate_weighted_score
        (toSRow (groupRow (weekFilterDay day week year) (d.empId, d.name)))
        = pyRound2 (wrap_score 0 * (5 / 100) + auto_on_score 0 * (40 / 100)
            + (0 : Rat) * (10 / 100) + (0 : Rat) * (15 / 100) + (0 : Rat) * (30 / 100)) := rfl
    rw [e, wrap_score, auto_on_score]
    norm_num [pyRound2, pyRoundInt, ratFloor]
  refine ⟨groupRow (weekFilterDay day week year) (d.empId, d.name), ?_, hde, rfl, rfl⟩
  have hguard : ((weekFilterDay day week year).isEmpty
      || (weekFilterCsat csat week year).isEmpty) = false := by
    rw [hgd, hgc]
    rfl
  rw [ranked_rows, hguard, if_neg (by simp)]
  rw [mem_sortByDesc]
  have hpair : ((groupRow (weekFilterDay day week year) (d.empId, d.name)), (5 : Rat))
      = ((groupRow (weekFilterDay day week year) (d.empId, d.name)),
        calculate_weighted_score
          (toSRow (groupRow (weekFilterDay day week year) (d.empId, d.name)))) := by
    rw [hscore]
  rw [hpair, scoredRows]
  exact List.mem_map_of_mem _ hmerge

/-- C7 witness: the amended statement on a concrete two-table input
where employee `E1` has daily data for week 5 of 2025 and only employee
`E2` has satisfaction data there. -/
theorem left_join_includes_missing_csat_witness :
    ∃ m, (m, (5 : Rat)) ∈ ranked_rows [⟨"E1", "Alice", "5", "2025", 30, 1000, 10⟩]
        [⟨"E2", "5", "2025", 80, 90, 70⟩] "5" "2025"
      ∧ m.empId = "E1" ∧ m.csatRes = none ∧ m.csatBeh = none :=
  left_join_includes_missing_csat _ _ _ _ _
    ⟨⟨"E1", "Alice", "5", "2025", 30, 1000, 10⟩, List.mem_cons_self _ _, rfl, rfl, rfl⟩
    ⟨⟨"E2", "5", "2025", 80, 90, 70⟩, List.mem_cons_self _ _, rfl, rfl⟩
    (by
      intro c hcm hw hy
      rcases List.mem_singleton.mp hcm with rfl
      decide)

/-- C8 (confirmed, with the spec's top-count parameter): the ranking
returns exactly `min n (number of rows)` results for every `n`, and an
empty input produces an empty output rather than an error — both for the
spec's parameterised `rank_top_performers` and for the source pipeline
`get_weekly_top_performers` (which instantiates `n = 5` via `head(5)`)
on an empty daily table. -/
theorem rank_top_performers_length_contract :
    (∀ (rows : List (MetricRow × Rat)) (n : Nat),
        (rank_top_performers rows n).length = min n rows.length)
      ∧ (∀ n, rank_top_performers [] n = [])
      ∧ (∀ (csat : List CsatRec) (week year : String),
          get_weekly_top_performers [] csat week year = []) := by
  refine ⟨?_, ?_, ?_⟩
  · intro rows n
    rw [rank_top_performers, List.length_take, length_sortByDesc]
  · intro n
    rw [rank_top_performers]
    simp [sortByDesc]
  · intro csat week year
    rw [get_weekly_top_performers, ranked_rows]
    simp [weekFilterDay]
